import Mathlib

/-!
Shallow embedding of the media-store core of `src/components/PhotoGallery.jsx`
(the `PhotoGallery` React component).  The component keeps an in-memory
snapshot (`photos`, `albums`, `selectedView`, `searchTerm`), two IndexedDB
object stores (`files` keyed by `id` holding blobs, `photos` keyed by `id`
holding metadata records), and a process-local `urlCache` mapping a file id to
an object URL.  Each handler of the component is translated below into a pure
function over explicit state; IndexedDB writes that can fail are modelled with
injected success flags where a claim depends on the failure path.
-/

namespace PhotoGallery

/-- Metadata record stored in the `photos` object store and in the React
`photos` state (see `newPhoto` in `handleFileUpload`).  `blob` contents are
opaque, so `size` stands in for the payload and the blob bytes are a list of
naturals elsewhere.  `date` is the ISO timestamp string `new Date().toISOString()`. -/
structure Photo where
  id : String
  name : String
  fileId : String
  type : String
  size : Nat
  date : String
  albums : List String
deriving Repr, DecidableEq

/-- Album record kept in the `albums` React state / localStorage:
`{ id, name, isDefault, date }` (`handleCreateAlbum`). -/
structure Album where
  id : String
  name : String
  isDefault : Bool
  date : String
deriving Repr, DecidableEq

/-- Record of the `files` object store: `{ id: fileId, blob: file }`. -/
structure FileRecord where
  id : String
  blob : List Nat
deriving Repr, DecidableEq

/-- Kind derivation of line 194:
`file.type.startsWith("video/") ? "video" : "image"`. -/
def fileTypeOf (mime : String) : String :=
  if mime.startsWith "video/" then "video" else "image"

/-- JavaScript `String.prototype.includes`: contiguous-substring test
(`"".includes` of anything in anything is true for the empty needle). -/
def jsIncludes (s sub : String) : Bool :=
  decide (sub.data <:+: s.data)

/-- Translation of `filteredPhotos` (lines 142-146): an item is kept when it is in the
selected album (`selectedView === "all" || photo.albums.includes(selectedView)`)
and matches the search
(`!searchTerm || photo.name.toLowerCase().includes(searchTerm.toLowerCase())`).
In JavaScript `!searchTerm` is the empty-string test. -/
def filteredPhotos (photos : List Photo) (selectedView searchTerm : String) :
    List Photo :=
  photos.filter (fun photo =>
    (selectedView == "all" || photo.albums.contains selectedView)
    && (searchTerm == "" || jsIncludes photo.name.toLower searchTerm.toLower))

/-- Translation of `handleAddToAlbum` (lines 306-339) restricted to its effect on the photo
list (the IndexedDB `photos` store receives the same updated record): the
reserved id `"all"` is rejected by the early return; otherwise the photo with
the given id gets `albumId` appended to its `albums` unless already present. -/
def handleAddToAlbum (photos : List Photo) (photoId albumId : String) :
    List Photo :=
  if albumId = "all" then photos
  else
    photos.map (fun photo =>
      if photo.id = photoId then
        if photo.albums.contains albumId then photo
        else { photo with albums := photo.albums ++ [albumId] }
      else photo)

/-- Translation of `handleRemoveFromAlbum` (lines 341-369) restricted to its effect on the
photo list: the reserved id `"all"` is rejected by the early return; otherwise
the photo with the given id has `albumId` filtered out of its `albums`. -/
def handleRemoveFromAlbum (photos : List Photo) (photoId albumId : String) :
    List Photo :=
  if albumId = "all" then photos
  else
    photos.map (fun photo =>
      if photo.id = photoId then
        { photo with albums := photo.albums.filter (fun i => i ≠ albumId) }
      else photo)

/-- Applying the per-photo add-to-album update twice equals applying it once. -/
theorem addToAlbum_step_idem (photoId albumId : String) (photo : Photo) :
    (fun p : Photo =>
      if p.id = photoId then
        if p.albums.contains albumId then p
        else { p with albums := p.albums ++ [albumId] }
      else p)
    ((fun p : Photo =>
      if p.id = photoId then
        if p.albums.contains albumId then p
        else { p with albums := p.albums ++ [albumId] }
      else p) photo)
    = (fun p : Photo =>
      if p.id = photoId then
        if p.albums.contains albumId then p
        else { p with albums := p.albums ++ [albumId] }
      else p) photo := by
  by_cases hid : photo.id = photoId
  · by_cases hmem : albumId ∈ photo.albums
    · simp [hid, hmem]
    · simp [hid, hmem]
  · simp [hid]

/-- C6: `handleAddToAlbum` and `handleRemoveFromAlbum` reject the reserved id
`"all"` (the photo list is unchanged), and both are idempotent: a second call
with the same arguments leaves the state produced by the first call fixed. -/
theorem addRemoveAlbum_reserved_and_idem :
    ∀ (photos : List Photo) (photoId albumId : String),
      handleAddToAlbum photos photoId "all" = photos
      ∧ handleRemoveFromAlbum photos photoId "all" = photos
      ∧ handleAddToAlbum (handleAddToAlbum photos photoId albumId)
          photoId albumId = handleAddToAlbum photos photoId albumId
      ∧ handleRemoveFromAlbum (handleRemoveFromAlbum photos photoId albumId)
          photoId albumId = handleRemoveFromAlbum photos photoId albumId := by
  intro photos photoId albumId
  refine ⟨by simp [handleAddToAlbum], by simp [handleRemoveFromAlbum], ?_, ?_⟩
  · by_cases hall : albumId = "all"
    · simp [handleAddToAlbum, hall]
    · simp only [handleAddToAlbum, if_neg hall, List.map_map]
      refine List.map_congr_left ?_
      intro p _
      exact addToAlbum_step_idem photoId albumId p
  · by_cases hall : albumId = "all"
    · simp [handleRemoveFromAlbum, hall]
    · simp only [handleRemoveFromAlbum, if_neg hall, List.map_map]
      refine List.map_congr_left ?_
      intro p _
      by_cases hid : p.id = photoId
      · simp [hid, Function.comp, List.filter_filter]
      · simp [hid, Function.comp]

/-- JavaScript `String.prototype.trim`: strip leading and trailing
whitespace. -/
def jsTrim (s : String) : String :=
  ⟨((s.data.dropWhile Char.isWhitespace).reverse.dropWhile
      Char.isWhitespace).reverse⟩

/-- Outcome of a rename attempt.  `invalidArgument` names the blank-name
early return, `notFound` the path on which the id matches no photo and the
IndexedDB put is skipped (the source surfaces no error object on either
no-effect path; the labels follow the guard that was taken). -/
inductive RenameOutcome
  | invalidArgument
  | notFound
  | renamed
deriving Repr, DecidableEq

structure RenameResult where
  photos : List Photo
  outcome : RenameOutcome
deriving Repr, DecidableEq

/-- Translation of `handleRename` (RenameModal, lines 534-558), photo branch, as a function
on the photo list.  `if (!localItemName.trim()) return;` is the blank guard:
nothing is read or written.  Otherwise `updatedPhotos` maps the trimmed name
onto every photo whose id matches, and
`photoToUpdate = updatedPhotos.find((photo) => photo.id === isRenamingItem.id)`
guards the IndexedDB put: when no photo has the id, no record is written and
the state passed to `setPhotos` is the identity-mapped list. -/
def handleRename (photos : List Photo) (id newName : String) : RenameResult :=
  if jsTrim newName = "" then ⟨photos, .invalidArgument⟩
  else
    let updatedPhotos := photos.map (fun photo =>
      if photo.id = id then { photo with name := jsTrim newName } else photo)
    match updatedPhotos.find? (fun photo => photo.id == id) with
    | some _ => ⟨updatedPhotos, .renamed⟩
    | none => ⟨updatedPhotos, .notFound⟩

/-- C3: a blank (empty or whitespace-only) new name is rejected with the
invalid-argument outcome and the photo list — in particular every stored
name — is unchanged; a non-blank rename of an id that no photo carries takes
the not-found outcome and also leaves the photo list unchanged. -/
theorem rename_blank_and_missing_noop :
    ∀ (photos : List Photo) (id newName : String),
      (jsTrim newName = "" →
        handleRename photos id newName = ⟨photos, .invalidArgument⟩)
      ∧ (jsTrim newName ≠ "" → (∀ p ∈ photos, p.id ≠ id) →
        handleRename photos id newName = ⟨photos, .notFound⟩) := by
  intro photos id newName
  constructor
  · intro h
    simp [handleRename, h]
  · intro h hnone
    have hmap : photos.map (fun photo =>
        if photo.id = id then { photo with name := jsTrim newName } else photo)
        = photos := by
      have hcongr : photos.map (fun photo =>
          if photo.id = id then { photo with name := jsTrim newName }
          else photo) = photos.map (fun photo => photo) :=
        List.map_congr_left (fun p hp => if_neg (hnone p hp))
      simpa using hcongr
    have hfind : photos.find? (fun photo => photo.id == id) = none := by
      rw [List.find?_eq_none]
      intro p hp
      simpa using hnone p hp
    simp [handleRename, h, hmap, hfind]

/-- Witness for C3 at concrete inputs: renaming `id-1` to a whitespace-only
name is rejected without change, and renaming a missing id is a no-op with
the not-found outcome. -/
theorem rename_blank_and_missing_noop_witness :
    handleRename [⟨"id-1", "beach.png", "id-1", "image", 5,
        "2024-05-01T10:00:00.000Z", ["all"]⟩] "id-1" "   "
      = ⟨[⟨"id-1", "beach.png", "id-1", "image", 5,
        "2024-05-01T10:00:00.000Z", ["all"]⟩], .invalidArgument⟩
    ∧ handleRename [⟨"id-1", "beach.png", "id-1", "image", 5,
        "2024-05-01T10:00:00.000Z", ["all"]⟩] "id-2" "dunes.png"
      = ⟨[⟨"id-1", "beach.png", "id-1", "image", 5,
        "2024-05-01T10:00:00.000Z", ["all"]⟩], .notFound⟩ := by
  constructor
  · exact (rename_blank_and_missing_noop _ "id-1" "   ").1 (by decide)
  · exact (rename_blank_and_missing_noop _ "id-2" "dunes.png").2
      (by decide) (by intro p hp; simp at hp; subst hp; decide)

/-- The component state the album handlers touch: the photo list, the album
list and the currently selected view id. -/
structure GalleryState where
  photos : List Photo
  albums : List Album
  selectedView : String
deriving Repr, DecidableEq

inductive GalleryError
  | invalidArgument
deriving Repr, DecidableEq

/-- Translation of `handleDeleteAlbum` (lines 276-304).  `if (albumId === "all") return;` is
the reserved-album guard (a bare early return in the source, surfaced here as
the invalid-argument error value).  Otherwise the album record is filtered
out, every photo's `albums` list is scrubbed of the id (and the same records
are put back into the IndexedDB `photos` store), and `selectedView` falls back
to `"all"` when it was the deleted album. -/
def handleDeleteAlbum (st : GalleryState) (albumId : String) :
    Except GalleryError GalleryState :=
  if albumId = "all" then .error .invalidArgument
  else
    .ok { photos := st.photos.map (fun photo =>
            { photo with albums := photo.albums.filter (fun i => i ≠ albumId) })
          albums := st.albums.filter (fun album => album.id ≠ albumId)
          selectedView := if st.selectedView = albumId then "all"
            else st.selectedView }

/-- C4: deleting the reserved album `"all"` is rejected (invalid argument, no
state change); deleting any other existing album removes its record, scrubs
its id from every photo, empties the view of that album, and falls back to
the `"all"` view when the deleted album was selected. -/
theorem deleteAlbum_reserved_and_cascade :
    ∀ (st st' : GalleryState) (albumId : String),
      handleDeleteAlbum st "all" = .error .invalidArgument
      ∧ (albumId ≠ "all" → (∃ a ∈ st.albums, a.id = albumId) →
          handleDeleteAlbum st albumId = .ok st' →
          (∀ a ∈ st'.albums, a.id ≠ albumId)
          ∧ (∀ p ∈ st'.photos, albumId ∉ p.albums)
          ∧ filteredPhotos st'.photos albumId "" = []
          ∧ (st.selectedView = albumId → st'.selectedView = "all")) := by
  intro st st' albumId
  constructor
  · simp [handleDeleteAlbum]
  · intro hall _ hok
    simp only [handleDeleteAlbum, if_neg hall, Except.ok.injEq] at hok
    subst hok
    refine ⟨?_, ?_, ?_, ?_⟩
    · intro a ha
      have := (List.mem_filter.mp ha).2
      simpa using this
    · intro p hp
      rcases List.mem_map.mp hp with ⟨q, _, rfl⟩
      intro hmem
      have := (List.mem_filter.mp hmem).2
      simp at this
    · simp only [filteredPhotos]
      rw [List.filter_eq_nil_iff]
      intro p hp
      rcases List.mem_map.mp hp with ⟨q, _, rfl⟩
      simp [hall, List.contains, List.elem_iff, List.mem_filter]
    · intro hsel
      simp [hsel]

/-- Witness for C4 at a concrete state: deleting the album `alb-1` while it
is selected is accepted, scrubs the one photo referencing it, empties its
view and falls back to `"all"`; deleting `"all"` is rejected. -/
theorem deleteAlbum_reserved_and_cascade_witness :
    handleDeleteAlbum
        (GalleryState.mk
          [⟨"id-1", "beach.png", "id-1", "image", 5,
            "2024-05-01T10:00:00.000Z", ["all", "alb-1"]⟩]
          [⟨"alb-1", "Trip", false, "2024-05-02T09:00:00.000Z"⟩]
          "alb-1") "all"
      = .error .invalidArgument
    ∧ "alb-1" ∉ (Photo.mk "id-1" "beach.png" "id-1" "image" 5
        "2024-05-01T10:00:00.000Z" ["all"]).albums
    ∧ filteredPhotos [⟨"id-1", "beach.png", "id-1", "image", 5,
        "2024-05-01T10:00:00.000Z", ["all"]⟩] "alb-1" "" = []
    ∧ (GalleryState.mk [⟨"id-1", "beach.png", "id-1", "image", 5,
        "2024-05-01T10:00:00.000Z", ["all"]⟩] [] "all").selectedView
      = "all" := by
  have h := deleteAlbum_reserved_and_cascade
    (GalleryState.mk [⟨"id-1", "beach.png", "id-1", "image", 5,
        "2024-05-01T10:00:00.000Z", ["all", "alb-1"]⟩]
      [⟨"alb-1", "Trip", false, "2024-05-02T09:00:00.000Z"⟩] "alb-1")
    (GalleryState.mk [⟨"id-1", "beach.png", "id-1", "image", 5,
        "2024-05-01T10:00:00.000Z", ["all"]⟩] [] "all") "alb-1"
  have h2 := h.2 (by decide)
    ⟨⟨"alb-1", "Trip", false, "2024-05-02T09:00:00.000Z"⟩, by simp, rfl⟩
    (by rfl)
  exact ⟨h.1, h2.2.1 _ (by simp), h2.2.2.1, h2.2.2.2 rfl⟩

/-- The metadata record built in `handleFileUpload` (lines 202-214):
`albums: ["all"]`, then `newPhoto.albums.push(selectedView)` when the current
view is not `"all"`.  `id` and `fileId` are both the generated `fileId`. -/
def newUploadPhoto (selectedView fileId fname mime : String) (size : Nat)
    (date : String) : Photo :=
  let base : Photo :=
    ⟨fileId, fname, fileId, fileTypeOf mime, size, date, ["all"]⟩
  if selectedView ≠ "all" then
    { base with albums := base.albums ++ [selectedView] }
  else base

/-- Translation of `handleCreateAlbum` (AlbumModal, lines 647-692): blank names are rejected
by the early return; otherwise the album record is appended and, when items
are selected, each selected photo gets the fresh album id appended to its
`albums` and the updated records are put back into the `photos` store. -/
def handleCreateAlbum (st : GalleryState) (albumId nm date : String)
    (selectedItems : List String) : GalleryState :=
  if jsTrim nm = "" then st
  else
    { st with
      albums := st.albums ++ [⟨albumId, jsTrim nm, false, date⟩]
      photos :=
        if selectedItems.length > 0 then
          st.photos.map (fun photo =>
            if selectedItems.contains photo.id then
              { photo with albums := photo.albums ++ [albumId] }
            else photo)
        else st.photos }

/-- One user-level operation of the component, with the data the handlers
read from the event (fresh ids, file fields, timestamps) passed explicitly. -/
inductive Op
  | upload (fileId fname mime : String) (size : Nat) (date : String)
  | rename (id newName : String)
  | createAlbum (albumId nm date : String) (selectedItems : List String)
  | deleteAlbum (albumId : String)
  | addToAlbum (photoId albumId : String)
  | removeFromAlbum (photoId albumId : String)
  | deletePhotos (ids : List String)

/-- Dispatch of one operation on the component state, each case the
state-level effect of the corresponding handler (`handleFileUpload` appends
the new record via `setPhotos((prev) => [...prev, ...newPhotos])`;
`handleDeletePhotos` keeps the photos whose id is not in the deleted list). -/
def applyOp (st : GalleryState) : Op → GalleryState
  | .upload fileId fname mime size date =>
      { st with photos := st.photos ++
          [newUploadPhoto st.selectedView fileId fname mime size date] }
  | .rename id newName =>
      { st with photos := (handleRename st.photos id newName).photos }
  | .createAlbum albumId nm date sel => handleCreateAlbum st albumId nm date sel
  | .deleteAlbum albumId =>
      match handleDeleteAlbum st albumId with
      | .ok st2 => st2
      | .error _ => st
  | .addToAlbum photoId albumId =>
      { st with photos := handleAddToAlbum st.photos photoId albumId }
  | .removeFromAlbum photoId albumId =>
      { st with photos := handleRemoveFromAlbum st.photos photoId albumId }
  | .deletePhotos ids =>
      { st with photos := st.photos.filter (fun p => !(ids.contains p.id)) }

/-- Each single operation preserves `"all"`-membership of every photo's album
list. -/
theorem applyOp_preserves_all (st : GalleryState) (op : Op)
    (h : ∀ p ∈ st.photos, "all" ∈ p.albums) :
    ∀ p ∈ (applyOp st op).photos, "all" ∈ p.albums := by
  cases op with
  | upload fileId fname mime size date =>
      intro p hp
      simp only [applyOp, List.mem_append, List.mem_singleton] at hp
      rcases hp with hp | hp
      · exact h p hp
      · subst hp
        unfold newUploadPhoto
        by_cases hsv : st.selectedView ≠ "all" <;> simp [hsv]
  | rename id newName =>
      intro p hp
      simp only [applyOp, handleRename] at hp
      by_cases hb : jsTrim newName = ""
      · rw [if_pos hb] at hp
        exact h p hp
      · rw [if_neg hb] at hp
        have hp2 : p ∈ st.photos.map (fun photo =>
            if photo.id = id then { photo with name := jsTrim newName }
            else photo) := by
          rcases hfind : (st.photos.map (fun photo =>
              if photo.id = id then { photo with name := jsTrim newName }
              else photo)).find? (fun photo => photo.id == id) with _ | q
          · simpa [hfind] using hp
          · simpa [hfind] using hp
        rcases List.mem_map.mp hp2 with ⟨q, hq, rfl⟩
        by_cases hqid : q.id = id
        · simpa [hqid] using h q hq
        · simpa [hqid] using h q hq
  | createAlbum albumId nm date sel =>
      intro p hp
      simp only [handleCreateAlbum, applyOp] at hp
      by_cases hb : jsTrim nm = ""
      · rw [if_pos hb] at hp
        exact h p hp
      · rw [if_neg hb] at hp
        simp only at hp
        by_cases hsel : sel.length > 0
        · rw [if_pos hsel] at hp
          rcases List.mem_map.mp hp with ⟨q, hq, rfl⟩
          by_cases hqid : q.id ∈ sel
          · simpa [hqid] using Or.inl (h q hq)
          · simpa [hqid] using h q hq
        · rw [if_neg hsel] at hp
          exact h p hp
  | deleteAlbum albumId =>
      intro p hp
      simp only [applyOp, handleDeleteAlbum] at hp
      by_cases hall : albumId = "all"
      · rw [if_pos hall] at hp
        exact h p hp
      · rw [if_neg hall] at hp
        simp only at hp
        rcases List.mem_map.mp hp with ⟨q, hq, rfl⟩
        simp only [List.mem_filter]
        refine ⟨h q hq, by simpa using Ne.symm hall⟩
  | addToAlbum photoId albumId =>
      intro p hp
      simp only [applyOp, handleAddToAlbum] at hp
      by_cases hall : albumId = "all"
      · rw [if_pos hall] at hp
        exact h p hp
      · rw [if_neg hall] at hp
        rcases List.mem_map.mp hp with ⟨q, hq, rfl⟩
        by_cases hqid : q.id = photoId
        · by_cases hmem : albumId ∈ q.albums
          · simpa [hqid, hmem] using h q hq
          · simp only [hqid, if_pos, hmem]
            simpa [hmem] using Or.inl (h q hq)
        · simpa [hqid] using h q hq
  | removeFromAlbum photoId albumId =>
      intro p hp
      simp only [applyOp, handleRemoveFromAlbum] at hp
      by_cases hall : albumId = "all"
      · rw [if_pos hall] at hp
        exact h p hp
      · rw [if_neg hall] at hp
        rcases List.mem_map.mp hp with ⟨q, hq, rfl⟩
        by_cases hqid : q.id = photoId
        · simp only [hqid, if_pos, List.mem_filter]
          refine ⟨h q hq, by simpa using Ne.symm hall⟩
        · simpa [hqid] using h q hq
  | deletePhotos ids =>
      intro p hp
      simp only [applyOp, List.mem_filter] at hp
      exact h p hp.1

/-- C2: starting from any state whose photos all carry the reserved album id
`"all"` (as every uploaded item does), every sequence of component operations
(upload, rename, album create/delete, add-to-album, remove-from-album,
delete) leaves every photo's album list containing `"all"`. -/
theorem all_album_invariant :
    ∀ (ops : List Op) (st : GalleryState),
      (∀ p ∈ st.photos, "all" ∈ p.albums) →
      ∀ p ∈ (ops.foldl applyOp st).photos, "all" ∈ p.albums := by
  intro ops
  induction ops with
  | nil => intro st h; simpa using h
  | cons op rest ih =>
      intro st h
      exact ih (applyOp st op) (applyOp_preserves_all st op h)

/-- Witness for C2: a concrete run — upload into the `"trip"` view, create an
album, add and remove memberships, delete the album, rename, delete a
photo — keeps `"all"` in every remaining photo's album list. -/
theorem all_album_invariant_witness :
    (List.foldl applyOp
      (GalleryState.mk [] [] "all")
      [Op.upload "id-1" "beach.png" "image/png" 5 "2024-05-01T10:00:00.000Z",
       Op.upload "id-2" "clip.mp4" "video/mp4" 9 "2024-05-02T11:00:00.000Z",
       Op.createAlbum "alb-1" "Trip" "2024-05-02T12:00:00.000Z" ["id-1"],
       Op.addToAlbum "id-2" "alb-1",
       Op.removeFromAlbum "id-1" "alb-1",
       Op.rename "id-1" "dunes.png",
       Op.deleteAlbum "alb-1",
       Op.deletePhotos ["id-2"]]).photos.all
      (fun p => p.albums.contains "all") = true := by
  have h := all_album_invariant
    [Op.upload "id-1" "beach.png" "image/png" 5 "2024-05-01T10:00:00.000Z",
     Op.upload "id-2" "clip.mp4" "video/mp4" 9 "2024-05-02T11:00:00.000Z",
     Op.createAlbum "alb-1" "Trip" "2024-05-02T12:00:00.000Z" ["id-1"],
     Op.addToAlbum "id-2" "alb-1",
     Op.removeFromAlbum "id-1" "alb-1",
     Op.rename "id-1" "dunes.png",
     Op.deleteAlbum "alb-1",
     Op.deletePhotos ["id-2"]]
    (GalleryState.mk [] [] "all") (by simp)
  rw [List.all_eq_true]
  intro p hp
  simpa [List.contains, List.elem_iff] using h p hp

/-- Upsert into the keyed `files` object store (IndexedDB `put` with
`keyPath: "id"`): replace the record with the same key, else append. -/
def putFile (files : List FileRecord) (rec : FileRecord) : List FileRecord :=
  if files.any (fun g => g.id == rec.id) then
    files.map (fun g => if g.id = rec.id then rec else g)
  else files ++ [rec]

/-- Upsert into the keyed `photos` object store. -/
def putPhoto (photos : List Photo) (p : Photo) : List Photo :=
  if photos.any (fun q => q.id == p.id) then
    photos.map (fun q => if q.id = p.id then p else q)
  else photos ++ [p]

/-- The persistent state: the `files` and `photos` object stores of
`photo-gallery-db`. -/
structure DB where
  files : List FileRecord
  photos : List Photo
deriving Repr, DecidableEq

/-- One iteration of the `files.map(async (file) => ...)` body of
`handleFileUpload` (lines 192-223), with the success of the two store writes
injected (`blobOk` for `fileStore.put`, `metaOk` for `photoStore.put`).  Each
put runs in its own awaited transaction, so a failing metadata write leaves
the already-committed blob write in place; the surrounding `catch`
(lines 233-236) only logs and alerts, deleting nothing. -/
def uploadOne (blobOk metaOk : Bool) (selectedView fileId fname mime : String)
    (size : Nat) (bytes : List Nat) (date : String) (db : DB) :
    DB × Option Photo :=
  if !blobOk then (db, none)
  else
    let db1 : DB := { db with files := putFile db.files ⟨fileId, bytes⟩ }
    if !metaOk then (db1, none)
    else
      let newPhoto := newUploadPhoto selectedView fileId fname mime size date
      ({ db1 with photos := putPhoto db1.photos newPhoto }, some newPhoto)

/-- Translation of `handleDeletePhotos` (lines 239-274) on the two stores: every id of the
list is deleted from `files` and then from `photos`. -/
def deletePhotosDB (db : DB) (photoIds : List String) : DB :=
  { files := db.files.filter (fun f => !(photoIds.contains f.id))
    photos := db.photos.filter (fun p => !(photoIds.contains p.id)) }

/-- Absence of orphan blobs: every record of the `files` store is referenced by the
`fileId` of some record of the `photos` store. -/
def noOrphanBlobs (db : DB) : Prop :=
  ∀ f ∈ db.files, ∃ p ∈ db.photos, p.fileId = f.id

/-- A put always leaves a record with the written key in the `files` store. -/
theorem putFile_mem (files : List FileRecord) (rec : FileRecord) :
    ∃ f ∈ putFile files rec, f.id = rec.id := by
  unfold putFile
  by_cases h : files.any (fun g => g.id == rec.id) = true
  · rw [if_pos h]
    rcases List.any_eq_true.mp h with ⟨g, hg, hgid⟩
    refine ⟨rec, List.mem_map.mpr ⟨g, hg, ?_⟩, rfl⟩
    simp only [beq_iff_eq] at hgid
    simp [hgid]
  · rw [if_neg h]
    exact ⟨rec, by simp, rfl⟩

/-- A put always leaves a record with the written key in the `photos`
store. -/
theorem putPhoto_mem (photos : List Photo) (p : Photo) :
    ∃ q ∈ putPhoto photos p, q.id = p.id := by
  unfold putPhoto
  by_cases h : photos.any (fun q => q.id == p.id) = true
  · rw [if_pos h]
    rcases List.any_eq_true.mp h with ⟨g, hg, hgid⟩
    refine ⟨p, List.mem_map.mpr ⟨g, hg, ?_⟩, rfl⟩
    simp only [beq_iff_eq] at hgid
    simp [hgid]
  · rw [if_neg h]
    exact ⟨p, by simp, rfl⟩

/-- The uploaded record's `id` and `fileId` are both the generated id. -/
theorem newUploadPhoto_key (selectedView fileId fname mime : String)
    (size : Nat) (date : String) :
    (newUploadPhoto selectedView fileId fname mime size date).id = fileId
    ∧ (newUploadPhoto selectedView fileId fname mime size date).fileId
      = fileId := by
  unfold newUploadPhoto
  by_cases h : selectedView ≠ "all" <;> simp [h]

/-- Counterexample for C1 at a concrete input: uploading one payload into an
empty library with a succeeding blob write and a failing metadata write
leaves a blob with no corresponding metadata record — the claimed error
recovery (deleting the orphaned blob) does not happen. -/
theorem upload_orphan_counterexample :
    ¬ noOrphanBlobs (uploadOne true false "all" "id-1" "beach.png"
        "image/png" 5 [1, 2, 3] "2024-05-01T10:00:00.000Z" ⟨[], []⟩).1 := by
  intro hcontra
  rcases hcontra ⟨"id-1", [1, 2, 3]⟩ (by decide) with ⟨p, hp, _⟩
  simp [uploadOne, putFile] at hp

/-- C1 amended: when the blob write succeeds and the metadata write fails for
a fresh id, the catch block only reports the failure: no metadata record is
written, no item is returned, and the blob stays in the `files` store with no
referencing metadata record (the orphaned blob persists instead of being
deleted). -/
theorem upload_metaFail_leaves_orphan :
    ∀ (selectedView fileId fname mime : String) (size : Nat)
      (bytes : List Nat) (date : String) (db : DB),
      (∀ p ∈ db.photos, p.fileId ≠ fileId) →
      (uploadOne true false selectedView fileId fname mime size bytes date
          db).2 = none
      ∧ (uploadOne true false selectedView fileId fname mime size bytes date
          db).1.photos = db.photos
      ∧ (∃ f ∈ (uploadOne true false selectedView fileId fname mime size bytes
          date db).1.files, f.id = fileId)
      ∧ ¬ noOrphanBlobs (uploadOne true false selectedView fileId fname mime
          size bytes date db).1 := by
  intro selectedView fileId fname mime size bytes date db hfresh
  have hval : (uploadOne true false selectedView fileId fname mime size bytes
      date db).1 = { db with files := putFile db.files ⟨fileId, bytes⟩ } := by
    simp [uploadOne]
  have hsnd : (uploadOne true false selectedView fileId fname mime size bytes
      date db).2 = none := by
    simp [uploadOne]
  rcases putFile_mem db.files ⟨fileId, bytes⟩ with ⟨f, hf, hfid⟩
  refine ⟨hsnd, by rw [hval], ⟨f, by rw [hval]; exact hf, hfid⟩, ?_⟩
  intro hno
  rcases hno f (by rw [hval]; exact hf) with ⟨p, hp, hpfid⟩
  rw [hval] at hp
  exact hfresh p hp (by rw [hpfid, hfid])

/-- Witness for the amended C1 at a concrete input: one payload, empty
library, blob write succeeds, metadata write fails. -/
theorem upload_metaFail_leaves_orphan_witness :
    (uploadOne true false "all" "id-1" "beach.png" "image/png" 5 [1, 2, 3]
        "2024-05-01T10:00:00.000Z" ⟨[], []⟩).2 = none
    ∧ (uploadOne true false "all" "id-1" "beach.png" "image/png" 5 [1, 2, 3]
        "2024-05-01T10:00:00.000Z" ⟨[], []⟩).1.photos = (DB.mk [] []).photos
    ∧ (∃ f ∈ (uploadOne true false "all" "id-1" "beach.png" "image/png" 5
        [1, 2, 3] "2024-05-01T10:00:00.000Z" ⟨[], []⟩).1.files, f.id = "id-1")
    ∧ ¬ noOrphanBlobs (uploadOne true false "all" "id-1" "beach.png"
        "image/png" 5 [1, 2, 3] "2024-05-01T10:00:00.000Z" ⟨[], []⟩).1 :=
  upload_metaFail_leaves_orphan "all" "id-1" "beach.png" "image/png" 5
    [1, 2, 3] "2024-05-01T10:00:00.000Z" ⟨[], []⟩ (by simp)

/-- C9: a successful upload stores the blob and the metadata record under the
single generated id (`item.id = item.fileId`), and deleting that one id
removes the matching entry from both stores. -/
theorem upload_single_key :
    ∀ (selectedView fileId fname mime : String) (size : Nat)
      (bytes : List Nat) (date : String) (db : DB),
      ∃ p, (uploadOne true true selectedView fileId fname mime size bytes date
          db).2 = some p
        ∧ p.id = fileId ∧ p.fileId = fileId
        ∧ (∃ f ∈ (uploadOne true true selectedView fileId fname mime size
            bytes date db).1.files, f.id = p.id)
        ∧ (∃ q ∈ (uploadOne true true selectedView fileId fname mime size
            bytes date db).1.photos, q.id = p.id)
        ∧ (∀ f ∈ (deletePhotosDB (uploadOne true true selectedView fileId
            fname mime size bytes date db).1 [p.id]).files, f.id ≠ p.id)
        ∧ (∀ q ∈ (deletePhotosDB (uploadOne true true selectedView fileId
            fname mime size bytes date db).1 [p.id]).photos, q.id ≠ p.id) := by
  intro selectedView fileId fname mime size bytes date db
  have hkey := newUploadPhoto_key selectedView fileId fname mime size date
  refine ⟨newUploadPhoto selectedView fileId fname mime size date,
    by simp [uploadOne], hkey.1, hkey.2, ?_, ?_, ?_, ?_⟩
  · rcases putFile_mem db.files ⟨fileId, bytes⟩ with ⟨f, hf, hfid⟩
    exact ⟨f, by simp [uploadOne]; exact hf, by rw [hfid, hkey.1]⟩
  · rcases putPhoto_mem db.photos
        (newUploadPhoto selectedView fileId fname mime size date) with
      ⟨q, hq, hqid⟩
    exact ⟨q, by simp [uploadOne]; exact hq, hqid⟩
  · intro f hf
    have := (List.mem_filter.mp hf).2
    simpa using this
  · intro q hq
    have := (List.mem_filter.mp hq).2
    simpa using this

/-- JavaScript `Map.get` on `urlCache.current`: the value stored under the key, if
any. -/
def cacheGet (c : List (String × String)) (k : String) : Option String :=
  match c.find? (fun e => e.1 == k) with
  | some e => some e.2
  | none => none

/-- JavaScript `Map.set` on `urlCache.current`: overwrite the entry with the key, else
append it. -/
def cacheSet (c : List (String × String)) (k v : String) :
    List (String × String) :=
  if c.any (fun e => e.1 == k) then
    c.map (fun e => if e.1 = k then (k, v) else e)
  else c ++ [(k, v)]

/-- Process-local handle state beside the persistent `files` store:
`urlCache` is `urlCache.current` (file id → object URL), `revoked` records
the URLs passed to `URL.revokeObjectURL` (released resources). -/
structure CacheState where
  files : List FileRecord
  urlCache : List (String × String)
  revoked : List String
deriving Repr, DecidableEq

/-- Translation of `loadFileUrl` (lines 162-179), with the URL `URL.createObjectURL` would
mint passed in as `freshUrl`.  An empty `fileId` (`!fileId`) short-circuits
to the placeholder; a cached URL is returned as is; otherwise the blob record
is read from the `files` store — when present a fresh URL is cached and
returned, when absent the placeholder `"/placeholder.svg"` is returned. -/
def loadFileUrl (st : CacheState) (freshUrl fileId : String) :
    String × CacheState :=
  if fileId = "" then ("/placeholder.svg", st)
  else
    match cacheGet st.urlCache fileId with
    | some url => (url, st)
    | none =>
      match st.files.find? (fun f => f.id == fileId) with
      | some _ =>
          (freshUrl,
           { st with urlCache := cacheSet st.urlCache fileId freshUrl })
      | none => ("/placeholder.svg", st)

/-- The `photoIds.forEach` body of `handleDeletePhotos` (lines 256-261): when
the cache holds the id, its URL is revoked and the entry deleted. -/
def evictOne (st : CacheState) (id : String) : CacheState :=
  match cacheGet st.urlCache id with
  | some url =>
      { st with
        revoked := st.revoked ++ [url]
        urlCache := st.urlCache.filter (fun e => e.1 ≠ id) }
  | none => st

/-- Translation of `handleDeletePhotos` (lines 239-274) restricted to the `files` store and
the handle cache: the ids are deleted from the store, then each id is
evicted from the cache. -/
def handleDeletePhotosCache (st : CacheState) (photoIds : List String) :
    CacheState :=
  photoIds.foldl evictOne
    { st with files := st.files.filter (fun f => !(photoIds.contains f.id)) }

/-- A `find?` that fails on a list also fails on any filtration of it. -/
theorem find?_filter_none {α : Type} (p q : α → Bool) (l : List α)
    (h : l.find? p = none) : (l.filter q).find? p = none := by
  rw [List.find?_eq_none] at h ⊢
  intro x hx
  exact h x (List.mem_filter.mp hx).1

/-- Filtering away only elements the predicate rejects does not change
`find?`. -/
theorem find?_filter_of_imp {α : Type} (p q : α → Bool) (l : List α)
    (h : ∀ x, p x = true → q x = true) :
    (l.filter q).find? p = l.find? p := by
  induction l with
  | nil => rfl
  | cons a l ih =>
    by_cases hq : q a = true
    · rw [List.filter_cons_of_pos hq]
      by_cases hp : p a = true
      · rw [List.find?_cons_of_pos _ hp, List.find?_cons_of_pos _ hp]
      · rw [List.find?_cons_of_neg _ (by simp [hp]),
          List.find?_cons_of_neg _ (by simp [hp])]
        exact ih
    · have hp : ¬ p a = true := fun hpa => hq (h a hpa)
      rw [List.filter_cons_of_neg (by simpa using hq),
        List.find?_cons_of_neg _ (by simpa using hp)]
      exact ih

/-- Eviction never touches the `files` store. -/
theorem evictOne_files (st : CacheState) (j : String) :
    (evictOne st j).files = st.files := by
  cases h : cacheGet st.urlCache j <;> simp [evictOne, h]

/-- Eviction only appends to the revocation log. -/
theorem evictOne_revoked_mono (st : CacheState) (j u : String)
    (h : u ∈ st.revoked) : u ∈ (evictOne st j).revoked := by
  cases hc : cacheGet st.urlCache j <;> simp [evictOne, hc, h]

/-- Eviction cannot re-create a missing cache entry. -/
theorem evictOne_cache_none (st : CacheState) (i j : String)
    (h : cacheGet st.urlCache i = none) :
    cacheGet (evictOne st j).urlCache i = none := by
  cases hc : cacheGet st.urlCache j with
  | none => simpa [evictOne, hc] using h
  | some url =>
    simp only [evictOne, hc]
    unfold cacheGet at h ⊢
    rcases hf : st.urlCache.find? (fun e => e.1 == i) with _ | e
    · rw [find?_filter_none _ _ _ hf]
    · rw [hf] at h
      exact absurd h (by simp)

/-- Evicting an id empties its own cache entry. -/
theorem evictOne_cache_self (st : CacheState) (i : String) :
    cacheGet (evictOne st i).urlCache i = none := by
  cases hc : cacheGet st.urlCache i with
  | none => simp [evictOne, hc]
  | some url =>
    simp only [evictOne, hc]
    unfold cacheGet
    have : (st.urlCache.filter (fun e => e.1 ≠ i)).find?
        (fun e => e.1 == i) = none := by
      rw [List.find?_eq_none]
      intro e he
      have := (List.mem_filter.mp he).2
      simpa using this
    rw [this]

/-- Evicting a different id leaves an entry unchanged. -/
theorem evictOne_cache_other (st : CacheState) (i j : String) (hij : i ≠ j) :
    cacheGet (evictOne st j).urlCache i = cacheGet st.urlCache i := by
  cases hc : cacheGet st.urlCache j with
  | none => simp [evictOne, hc]
  | some url =>
    simp only [evictOne, hc]
    unfold cacheGet
    rw [find?_filter_of_imp]
    intro e he
    simp only [beq_iff_eq] at he
    simp [he, hij]

/-- The eviction loop never touches the `files` store. -/
theorem foldl_evict_files (l : List String) (st : CacheState) :
    (l.foldl evictOne st).files = st.files := by
  induction l generalizing st with
  | nil => rfl
  | cons j rest ih => rw [List.foldl_cons, ih, evictOne_files]

/-- The eviction loop only appends to the revocation log. -/
theorem foldl_evict_revoked_mono (l : List String) (st : CacheState)
    (u : String) (h : u ∈ st.revoked) : u ∈ (l.foldl evictOne st).revoked := by
  induction l generalizing st with
  | nil => simpa using h
  | cons j rest ih =>
    rw [List.foldl_cons]
    exact ih _ (evictOne_revoked_mono st j u h)

/-- The eviction loop cannot re-create a missing cache entry. -/
theorem foldl_evict_cache_none (l : List String) (st : CacheState)
    (i : String) (h : cacheGet st.urlCache i = none) :
    cacheGet ((l.foldl evictOne st)).urlCache i = none := by
  induction l generalizing st with
  | nil => simpa using h
  | cons j rest ih =>
    rw [List.foldl_cons]
    exact ih _ (evictOne_cache_none st i j h)

/-- After the eviction loop runs over a list containing `i`, the cache has no
entry for `i`, and the URL it held (if any) has been revoked. -/
theorem foldl_evict_mem (l : List String) (st : CacheState) (i : String)
    (hi : i ∈ l) :
    cacheGet ((l.foldl evictOne st)).urlCache i = none
    ∧ (∀ url, cacheGet st.urlCache i = some url →
        url ∈ (l.foldl evictOne st).revoked) := by
  induction l generalizing st with
  | nil => cases hi
  | cons j rest ih =>
    rw [List.foldl_cons]
    by_cases hij : i = j
    · subst hij
      refine ⟨foldl_evict_cache_none rest _ i (evictOne_cache_self st i), ?_⟩
      intro url hurl
      apply foldl_evict_revoked_mono
      simp [evictOne, hurl]
    · rcases List.mem_cons.mp hi with h1 | h2
      · exact absurd h1 hij
      · have hrec := ih (evictOne st j) h2
        refine ⟨hrec.1, ?_⟩
        intro url hurl
        apply hrec.2
        rw [evictOne_cache_other st i j hij]
        exact hurl

/-- C5: deleting a media item evicts its cached handle — the object URL held
for the id is revoked (resource released) and the cache entry removed — and a
subsequent `loadFileUrl` for that id yields the placeholder (the code's
not-found result), never a stale handle. -/
theorem delete_evicts_handle :
    ∀ (st : CacheState) (photoIds : List String) (id : String),
      id ∈ photoIds →
      (∀ url, cacheGet st.urlCache id = some url →
        url ∈ (handleDeletePhotosCache st photoIds).revoked)
      ∧ cacheGet (handleDeletePhotosCache st photoIds).urlCache id = none
      ∧ ∀ freshUrl,
          (loadFileUrl (handleDeletePhotosCache st photoIds) freshUrl id).1
            = "/placeholder.svg" := by
  intro st photoIds id hi
  have hmem := foldl_evict_mem photoIds
    { st with files := st.files.filter (fun f => !(photoIds.contains f.id)) }
    id hi
  have hcache : cacheGet (handleDeletePhotosCache st photoIds).urlCache id
      = none := hmem.1
  refine ⟨fun url hurl => hmem.2 url hurl, hcache, ?_⟩
  intro freshUrl
  unfold loadFileUrl
  by_cases hid : id = ""
  · rw [if_pos hid]
  · rw [if_neg hid, hcache]
    have hfiles : (handleDeletePhotosCache st photoIds).files
        = st.files.filter (fun f => !(photoIds.contains f.id)) :=
      foldl_evict_files _ _
    rw [hfiles]
    have hfind : (st.files.filter
        (fun f => !(photoIds.contains f.id))).find?
        (fun f => f.id == id) = none := by
      rw [List.find?_eq_none]
      intro f hf
      have hcon := (List.mem_filter.mp hf).2
      simp only [Bool.not_eq_eq_eq_not, Bool.not_true] at hcon
      simp only [beq_iff_eq]
      intro hfi
      rw [hfi] at hcon
      simp [hi] at hcon
    rw [hfind]

/-- Witness for C5 at a concrete state: one stored blob with a cached URL;
deleting its id revokes the URL, removes the entry, and a later resolve
returns the placeholder. -/
theorem delete_evicts_handle_witness :
    (∀ url, cacheGet [("id-1", "blob:a")] "id-1" = some url →
      url ∈ (handleDeletePhotosCache
        ⟨[⟨"id-1", [1, 2]⟩], [("id-1", "blob:a")], []⟩ ["id-1"]).revoked)
    ∧ cacheGet (handleDeletePhotosCache
        ⟨[⟨"id-1", [1, 2]⟩], [("id-1", "blob:a")], []⟩
        ["id-1"]).urlCache "id-1" = none
    ∧ ∀ freshUrl,
        (loadFileUrl (handleDeletePhotosCache
          ⟨[⟨"id-1", [1, 2]⟩], [("id-1", "blob:a")], []⟩ ["id-1"])
          freshUrl "id-1").1 = "/placeholder.svg" :=
  delete_evicts_handle ⟨[⟨"id-1", [1, 2]⟩], [("id-1", "blob:a")], []⟩
    ["id-1"] "id-1" (by simp)

/-- Date portion of the creation timestamp: `photo.date.split("T")[0]` on line 150 is the date portion of the creation
timestamp. -/
def dateKey (p : Photo) : String := (p.date.splitOn "T").headD ""

/-- The body of the `reduce` in `groupedPhotos` (lines 149-156): push the
photo onto its date group, creating the group at the end when absent (object
keys of date strings enumerate in insertion order, so the object is an
association list grown at the back). -/
def groupStep (groups : List (String × List Photo)) (photo : Photo) :
    List (String × List Photo) :=
  if groups.any (fun g => g.1 == dateKey photo) then
    groups.map (fun g =>
      if g.1 = dateKey photo then (g.1, g.2 ++ [photo]) else g)
  else groups ++ [(dateKey photo, [photo])]

/-- Translation of `groupedPhotos` (lines 149-156) as the fold of `groupStep` over the
(already filtered) photo list. -/
def groupedPhotos (photos : List Photo) : List (String × List Photo) :=
  photos.foldl groupStep []

/-- Lookup `groupedPhotos[date]`: the group stored under a date key (`[]` when the
key is absent). -/
def groupAt (groups : List (String × List Photo)) (d : String) : List Photo :=
  match groups.find? (fun g => g.1 == d) with
  | some g => g.2
  | none => []

/-- Translation of `sortedDates` (line 159): the object's keys sorted with the comparator
`new Date(b) - new Date(a)`, i.e. descending by parsed date; `parseDate`
stands for `Date.parse` on a date string, and the ECMAScript stable sort is
modelled by a stable merge sort. -/
def sortedDates (photos : List Photo) (parseDate : String → Int) :
    List String :=
  ((groupedPhotos photos).map (fun g => g.1)).mergeSort
    (fun a b => decide (parseDate b ≤ parseDate a))

/-- The sidebar album list (lines 893-896): non-default albums sorted with
the comparator `new Date(b.date) - new Date(a.date)` — descending creation
date. -/
def sortedAlbums (albums : List Album) (parseDate : String → Int) :
    List Album :=
  (albums.filter (fun a => !a.isDefault)).mergeSort
    (fun a b => decide (parseDate b.date ≤ parseDate a.date))

/-- Updating the group of key `k` in place is transparent to a lookup of
`k`. -/
theorem find?_map_keyed (groups : List (String × List Photo)) (k : String)
    (photo : Photo) :
    (groups.map (fun g => if g.1 = k then (g.1, g.2 ++ [photo]) else g)).find?
        (fun g => g.1 == k)
      = (groups.find? (fun g => g.1 == k)).map
          (fun g => (g.1, g.2 ++ [photo])) := by
  induction groups with
  | nil => rfl
  | cons g gs ih =>
    by_cases h : g.1 = k
    · rw [List.map_cons, if_pos h,
        List.find?_cons_of_pos _ (by simpa using h),
        List.find?_cons_of_pos _ (by simpa using h)]
      rfl
    · rw [List.map_cons, if_neg h,
        List.find?_cons_of_neg _ (by simpa using h),
        List.find?_cons_of_neg _ (by simpa using h)]
      exact ih

/-- Updating the group of key `k` in place is transparent to a lookup of any
other key. -/
theorem find?_map_other (groups : List (String × List Photo)) (k d : String)
    (hdk : d ≠ k) (photo : Photo) :
    (groups.map (fun g => if g.1 = k then (g.1, g.2 ++ [photo]) else g)).find?
        (fun g => g.1 == d)
      = groups.find? (fun g => g.1 == d) := by
  induction groups with
  | nil => rfl
  | cons g gs ih =>
    by_cases hd : g.1 = d
    · rw [List.map_cons, if_neg (by rw [hd]; exact hdk),
        List.find?_cons_of_pos _ (by simpa using hd),
        List.find?_cons_of_pos _ (by simpa using hd)]
    · by_cases hk : g.1 = k
      · rw [List.map_cons, if_pos hk,
          List.find?_cons_of_neg _ (by simpa using fun hc => hd hc),
          List.find?_cons_of_neg _ (by simpa using hd)]
        exact ih
      · rw [List.map_cons, if_neg hk,
          List.find?_cons_of_neg _ (by simpa using hd),
          List.find?_cons_of_neg _ (by simpa using hd)]
        exact ih

/-- One grouping step appends the photo to exactly its own date group. -/
theorem groupAt_groupStep (groups : List (String × List Photo)) (photo : Photo)
    (d : String) :
    groupAt (groupStep groups photo) d
      = groupAt groups d ++ (if dateKey photo = d then [photo] else []) := by
  unfold groupStep groupAt
  by_cases hany : groups.any (fun g => g.1 == dateKey photo) = true
  · rw [if_pos hany]
    by_cases hd : d = dateKey photo
    · subst hd
      rw [find?_map_keyed]
      rcases List.any_eq_true.mp hany with ⟨g0, hg0, hg0d⟩
      rcases hfind : groups.find? (fun g => g.1 == dateKey photo) with _ | g1
      · rw [List.find?_eq_none] at hfind
        exact absurd hg0d (hfind g0 hg0)
      · simp [hfind]
    · rw [find?_map_other groups (dateKey photo) d hd photo,
        if_neg (fun hc => hd hc.symm)]
      simp
  · rw [if_neg hany]
    have hnone : groups.find? (fun g => g.1 == dateKey photo) = none := by
      rw [List.find?_eq_none]
      intro g hg
      intro hgd
      exact hany (List.any_eq_true.mpr ⟨g, hg, hgd⟩)
    rcases hfa : groups.find? (fun g => g.1 == d) with _ | g1
    · rw [List.find?_append, hfa, Option.none_or]
      by_cases hd : dateKey photo = d
      · rw [List.find?_cons_of_pos _ (by simpa using hd), if_pos hd]
        rfl
      · rw [List.find?_cons_of_neg _ (by simpa using hd), if_neg hd]
        rfl
    · have hd : dateKey photo ≠ d := by
        intro hc
        rw [hc] at hnone
        rw [hnone] at hfa
        cases hfa
      rw [List.find?_append, hfa, if_neg hd]
      simp [Option.or]
/-- The grouping fold appends, group by group, the matching photos in
traversal order. -/
theorem groupAt_foldl (l : List Photo) (groups : List (String × List Photo))
    (d : String) :
    groupAt (l.foldl groupStep groups) d
      = groupAt groups d ++ l.filter (fun p => dateKey p == d) := by
  induction l generalizing groups with
  | nil => simp
  | cons a rest ih =>
    rw [List.foldl_cons, ih (groupStep groups a), groupAt_groupStep]
    by_cases hd : dateKey a = d
    · rw [if_pos hd, List.filter_cons_of_pos (by simpa using hd)]
      simp
    · rw [if_neg hd, List.filter_cons_of_neg (by simpa using hd)]
      simp

/-- C8: the sidebar lists the non-default albums most-recently-created
first; the date groups' keys are ordered most-recent-date first (and are
exactly the keys the grouping produced); and each date group holds exactly
the photos with that date key, in their original (insertion) order — for any
interpretation `parseDate` of `Date.parse`. -/
theorem ordering_policy :
    ∀ (photos : List Photo) (albums : List Album)
      (parseDate : String → Int),
      List.Pairwise (fun a b => parseDate b.date ≤ parseDate a.date)
        (sortedAlbums albums parseDate)
      ∧ (sortedAlbums albums parseDate).Perm
          (albums.filter (fun a => !a.isDefault))
      ∧ List.Pairwise (fun a b => parseDate b ≤ parseDate a)
          (sortedDates photos parseDate)
      ∧ (sortedDates photos parseDate).Perm
          ((groupedPhotos photos).map (fun g => g.1))
      ∧ ∀ d, groupAt (groupedPhotos photos) d
          = photos.filter (fun p => dateKey p == d) := by
  intro photos albums parseDate
  refine ⟨?_, List.mergeSort_perm _ _, ?_, List.mergeSort_perm _ _, ?_⟩
  · have h := @List.sorted_mergeSort Album
      (fun a b : Album => decide (parseDate b.date ≤ parseDate a.date))
      (fun a b c hab hbc => by
        simp only [decide_eq_true_eq] at hab hbc ⊢
        exact le_trans hbc hab)
      (fun a b => by
        simpa using le_total (parseDate b.date) (parseDate a.date))
      (albums.filter (fun a => !a.isDefault))
    exact h.imp (by simp)
  · have h := @List.sorted_mergeSort String
      (fun a b : String => decide (parseDate b ≤ parseDate a))
      (fun a b c hab hbc => by
        simp only [decide_eq_true_eq] at hab hbc ⊢
        exact le_trans hbc hab)
      (fun a b => by simpa using le_total (parseDate b) (parseDate a))
      ((groupedPhotos photos).map (fun g => g.1))
    exact h.imp (by simp)
  · intro d
    have h := groupAt_foldl photos [] d
    simpa [groupedPhotos, groupAt] using h

/-- C10: the stored item's kind is "video" exactly when the declared MIME type
starts with `video/`; every other declared type yields "image". -/
theorem fileType_video_iff :
    ∀ mime : String,
      (fileTypeOf mime = "video" ↔ mime.startsWith "video/" = true)
      ∧ (fileTypeOf mime = "image" ↔ mime.startsWith "video/" = false) := by
  intro mime
  unfold fileTypeOf
  by_cases h : mime.startsWith "video/" = true
  · simp [h]
  · simp at h
    simp [h]

/-- C7: the album view keeps exactly the items that are in the selected album
(`selectedView = "all"` or the view id is a member of the item's album list)
and, when the search text is non-empty, whose lower-cased name contains the
lower-cased search text as a substring; the empty search text excludes
nothing. -/
theorem filteredPhotos_mem_iff :
    ∀ (photos : List Photo) (selectedView searchTerm : String) (p : Photo),
      p ∈ filteredPhotos photos selectedView searchTerm ↔
        p ∈ photos
        ∧ (selectedView = "all" ∨ selectedView ∈ p.albums)
        ∧ (searchTerm = "" ∨ searchTerm.toLower.data <:+: p.name.toLower.data) := by
  intro photos selectedView searchTerm p
  simp only [filteredPhotos, List.mem_filter, Bool.and_eq_true, Bool.or_eq_true,
    beq_iff_eq, List.contains, List.elem_iff, decide_eq_true_eq, jsIncludes]

end PhotoGallery
